import Mathlib

/-!
Verification of the file-integrity kprobes event processor
(`auditbeat/module/file_integrity/kprobes/events_process.go`).

The processor `eProcessor.process` is translated directly from the Go
source.  The directory-entry cache (`dEntryCache`), the `dEntry.Path`
reconstruction, the traverser contract (`MonitorPath`, `GetMonitorPath`,
`WalkAsync`) and the probe-event pool are implemented in files that are
not part of the sources at hand; those are modelled from the
specification (each such definition carries a doc comment starting with
"Modelled from the spec").  Side effects (emissions, scheduled walks,
pool releases) are made explicit in the `ProcResult` value returned by
`process`.
-/

namespace FileIntegrity

/-- Inotify event code `unix.IN_MODIFY` used by the processor. -/
def IN_MODIFY : Nat := 0x2

/-- Inotify event code `unix.IN_ATTRIB` used by the processor. -/
def IN_ATTRIB : Nat := 0x4

/-- Inotify event code `unix.IN_MOVED_FROM` used by the processor. -/
def IN_MOVED_FROM : Nat := 0x40

/-- Inotify event code `unix.IN_MOVED_TO` used by the processor. -/
def IN_MOVED_TO : Nat := 0x80

/-- Inotify event code `unix.IN_CREATE` used by the processor. -/
def IN_CREATE : Nat := 0x100

/-- Inotify event code `unix.IN_DELETE` used by the processor. -/
def IN_DELETE : Nat := 0x200

/-- Identity of a filesystem object: inode plus device numbers
(spec §3, `DKey = (Ino, DevMajor, DevMinor)`). -/
structure dKey where
  Ino : Nat
  DevMajor : Nat
  DevMinor : Nat
deriving DecidableEq, Repr

/-- A directory-cache entry.  The Go `dEntry` carries the fields used
literally in `events_process.go` (`Name`, `Ino`, `DevMajor`, `DevMinor`,
`Depth`) plus parent/children links; in this flat embedding the parent
link is the parent's `dKey` and the children map is derived from the
cache index. -/
structure dEntry where
  Name : String
  Ino : Nat
  DevMajor : Nat
  DevMinor : Nat
  Depth : Nat
  Parent : Option dKey
deriving DecidableEq, Repr

/-- Key of an entry, assembled from its identity fields. -/
def dEntry.key (e : dEntry) : dKey := ⟨e.Ino, e.DevMajor, e.DevMinor⟩

/-- Modelled from the spec: the per-TID rename staging slot (spec §3,
"Rename staging") holds the subtree detached by `MoveFrom`: the detached
entry itself and its (former) descendants, awaiting the paired
`MoveTo`.  The cache implementation holding it is not among the sources. -/
structure stagedMove where
  entry : dEntry
  descendants : List dEntry
deriving DecidableEq, Repr

/-- Modelled from the spec: the directory-entry cache (spec §4.2
`DEntryCache`), whose implementation is not among the sources: the
`DKey → DEntry` index (here a list of entries, keys unique in
well-formed caches) plus the per-TID rename staging slots. -/
structure dEntryCache where
  entries : List dEntry
  moves : List (Nat × stagedMove)
deriving DecidableEq, Repr

/-- Modelled from the spec: fresh empty cache (`newDirEntryCache`). -/
def newDirEntryCache : dEntryCache := ⟨[], []⟩

/-- Modelled from the spec: `DEntryCache.Get(DKey)` returns the current
entry for a key, or nothing (spec §4.2). -/
def dEntryCache.Get (c : dEntryCache) (k : dKey) : Option dEntry :=
  c.entries.find? (fun e => e.key == k)

/-- Modelled from the spec: `DEntry.GetChild(name)` looks a child up by
basename (spec §4.1); in the flat embedding the children map of `p` is
the set of index entries whose parent link is `p.key`. -/
def dEntryCache.GetChild (c : dEntryCache) (p : dEntry) (name : String) : Option dEntry :=
  c.entries.find? (fun e => e.Parent == some p.key && e.Name == name)

/-- Modelled from the spec: path reconstruction (spec §4.1 `Path()`,
invariant I6): walk parent links concatenating names; a root (no
parent) returns its `Name`, which holds the full monitored path.
`fuel` bounds the walk (invariant I2: the chain from any entry reaches
a root within `Depth + 1` hops). -/
def pathWithFuel (es : List dEntry) (fuel : Nat) (e : dEntry) : String :=
  match e.Parent with
  | none => e.Name
  | some pk =>
    match fuel with
    | 0 => e.Name
    | Nat.succ f =>
      match es.find? (fun x => x.key == pk) with
      | none => e.Name
      | some p => pathWithFuel es f p ++ "/" ++ e.Name

/-- Modelled from the spec: `entry.Path()` over a cache, with fuel
`entry.Depth` per invariant I2. -/
def dEntryCache.path (c : dEntryCache) (e : dEntry) : String :=
  pathWithFuel c.entries e.Depth e

/-- Modelled from the spec: membership of `e` in the subtree rooted at
the entry with key `k`, decided by climbing parent links (used by
`Remove` and `MoveFrom`, which evict an entry "and all descendants"). -/
def inSubtree (es : List dEntry) (fuel : Nat) (k : dKey) (e : dEntry) : Bool :=
  e.key == k ||
    match fuel with
    | 0 => false
    | Nat.succ f =>
      match e.Parent with
      | none => false
      | some pk =>
        match es.find? (fun x => x.key == pk) with
        | none => false
        | some p => inSubtree es f k p

/-- Modelled from the spec: `DEntryCache.Add(entry, parent?)`
(spec §4.2): no-op when the key is already present; install as a root
when `parent` is absent; otherwise set the parent link, set
`Depth := parent.Depth + 1` and insert.  Returns the new cache together
with the entry as the caller now sees it (the Go `Add` mutates the
entry the caller holds a pointer to). -/
def dEntryCache.Add (c : dEntryCache) (entry : dEntry) (parent : Option dEntry) :
    dEntryCache × dEntry :=
  match c.Get entry.key with
  | some _ => (c, entry)
  | none =>
    match parent with
    | none => ({ c with entries := entry :: c.entries }, entry)
    | some p =>
      let e := { entry with Parent := some p.key, Depth := p.Depth + 1 }
      ({ c with entries := e :: c.entries }, e)

/-- Modelled from the spec: `DEntryCache.Remove(entry)` detaches the
entry and evicts it and all descendants from the index (spec §4.2). -/
def dEntryCache.Remove (c : dEntryCache) (entry : dEntry) : dEntryCache :=
  { c with
    entries := c.entries.filter
      (fun e => !(inSubtree c.entries c.entries.length entry.key e)) }

/-- Modelled from the spec: `DEntryCache.MoveClear(tid)` discards the
TID's staged entry if any (spec §4.2). -/
def dEntryCache.MoveClear (c : dEntryCache) (tid : Nat) : dEntryCache :=
  { c with moves := c.moves.filter (fun m => !(m.1 == tid)) }

/-- Modelled from the spec: the staging-slot value produced by
`MoveFrom`: the entry detached from its parent, together with its
(former) descendants (spec §4.2). -/
def stagedOf (c : dEntryCache) (entry : dEntry) : stagedMove :=
  ⟨{ entry with Parent := none },
   (c.entries.filter (fun e => inSubtree c.entries c.entries.length entry.key e)).filter
     (fun e => !(e.key == entry.key))⟩

/-- Modelled from the spec: `DEntryCache.MoveFrom(tid, entry)` detaches
the entry (and its descendants) from the index but keeps the subtree
reachable through the TID's staging slot, discarding any previous
staged entry for that TID (spec §4.2). -/
def dEntryCache.MoveFrom (c : dEntryCache) (tid : Nat) (entry : dEntry) : dEntryCache :=
  { entries := c.entries.filter
      (fun e => !(inSubtree c.entries c.entries.length entry.key e)),
    moves := (tid, stagedOf c entry) :: c.moves.filter (fun m => !(m.1 == tid)) }

/-- Modelled from the spec: the staged entry renamed to `newName` and
re-attached under `newParent` with `Depth := newParent.Depth + 1`
(spec §4.2 `MoveTo`). -/
def reattachEntry (s : stagedMove) (newParent : dEntry) (newName : String) : dEntry :=
  { s.entry with
      Name := newName
      Parent := some newParent.key
      Depth := newParent.Depth + 1 }

/-- Modelled from the spec: the staged descendants with their depths
fixed for the new attachment point (spec §4.2 `MoveTo`, "recursively
fix descendant depths"). -/
def reattachDescendants (s : stagedMove) (newParent : dEntry) : List dEntry :=
  s.descendants.map
    (fun e => { e with Depth := newParent.Depth + 1 + (e.Depth - s.entry.Depth) })

/-- Modelled from the spec: `DEntryCache.MoveTo(tid, newParent, newName)`
(spec §4.2): with a staged entry for the TID, rename it, re-attach it
under `newParent` with `Depth := newParent.Depth + 1`, fix descendant
depths, clear the slot and report the re-attached entry's new
reconstructed path (which the processor's callback emits); with no
staged entry, report nothing and change nothing (`moved = false`). -/
def dEntryCache.MoveTo (c : dEntryCache) (tid : Nat) (newParent : dEntry)
    (newName : String) : Option (dEntryCache × String) :=
  match c.moves.find? (fun m => m.1 == tid) with
  | none => none
  | some m =>
    let newEntry := reattachEntry m.2 newParent newName
    let newEntries := newEntry :: (reattachDescendants m.2 newParent ++ c.entries)
    some ({ entries := newEntries,
            moves := c.moves.filter (fun m => !(m.1 == tid)) },
          pathWithFuel newEntries newEntry.Depth newEntry)

/-- Modelled from the spec: the traverser's answer to `GetMonitorPath`
(spec §3 `MonitorPath`): canonical full path, depth, originating TID
and whether this monitor record completes a move. -/
structure MonitorPath where
  fullPath : String
  depth : Nat
  tid : Nat
  isFromMove : Bool
deriving DecidableEq, Repr

/-- Metadata of a probe event; only the originating task id is used by
the processor (`pe.Meta.TID`). -/
structure ProbeEventMeta where
  TID : Nat
deriving DecidableEq, Repr

/-- A probe event as consumed by `eProcessor.process`: one mask flag per
event kind (a recognized kind has its flag set to 1), the subject's
basename and identity, and the identity of the subject's parent
directory. -/
structure ProbeEvent where
  MaskMonitor : Nat
  MaskCreate : Nat
  MaskModify : Nat
  MaskAttrib : Nat
  MaskMoveFrom : Nat
  MaskMoveTo : Nat
  MaskDelete : Nat
  FileName : String
  FileIno : Nat
  FileDevMajor : Nat
  FileDevMinor : Nat
  ParentIno : Nat
  ParentDevMajor : Nat
  ParentDevMinor : Nat
  Meta : ProbeEventMeta
deriving DecidableEq, Repr

/-- One call made to `Emitter.Emit(path, tid, op)`. -/
structure EmitCall where
  path : String
  tid : Nat
  op : Nat
deriving DecidableEq, Repr

/-- One call made to `pathTraverser.WalkAsync(path, depth, tid)`. -/
structure WalkCall where
  path : String
  depth : Nat
  tid : Nat
deriving DecidableEq, Repr

/-- The observable outcome of one `process` call: the cache afterwards,
the `Emit` calls made (in order), the `WalkAsync` calls made, how many
times the probe event was returned to its pool, and the returned Go
error (`none` = nil). -/
structure ProcResult where
  cache : dEntryCache
  emits : List EmitCall
  walks : List WalkCall
  released : Nat
  err : Option String
deriving DecidableEq, Repr

/-- The processor: the traverser and emitter collaborators are held as
their operation signatures (`GetMonitorPath` answers a query;
`Emitter.Emit` answers `none` for nil or `some msg` for an error), plus
the recursion flag.  The cache is passed explicitly. -/
structure eProcessor where
  getMonitorPath : Nat → Nat → Nat → String → Option MonitorPath
  emit : String → Nat → Nat → Option String
  isRecursive : Bool

/-- Branch of `process` for `pe.MaskMonitor == 1`
(events_process.go:40-87). -/
def processMonitor (pr : eProcessor) (d : dEntryCache) (pe : ProbeEvent) : ProcResult :=
  match pr.getMonitorPath pe.FileIno pe.FileDevMajor pe.FileDevMinor pe.FileName with
  | none => ⟨d, [], [], 0, none⟩
  | some monitorPath =>
    let entry0 := d.Get ⟨pe.FileIno, pe.FileDevMajor, pe.FileDevMinor⟩
    let parentEntry := d.Get ⟨pe.ParentIno, pe.ParentDevMajor, pe.ParentDevMinor⟩
    let entry : dEntry :=
      match parentEntry, entry0 with
      | none, _ =>
        ⟨monitorPath.fullPath, pe.FileIno, pe.FileDevMajor, pe.FileDevMinor,
         monitorPath.depth, none⟩
      | some p, none =>
        ⟨pe.FileName, pe.FileIno, pe.FileDevMajor, pe.FileDevMinor, p.Depth + 1, none⟩
      | some _, some en => en
    let res := d.Add entry parentEntry
    if monitorPath.isFromMove = false then ⟨res.1, [], [], 0, none⟩
    else
      let p := res.1.path res.2
      ⟨res.1, [⟨p, monitorPath.tid, IN_MOVED_TO⟩], [], 0,
       pr.emit p monitorPath.tid IN_MOVED_TO⟩

/-- Branch of `process` for `pe.MaskCreate == 1`
(events_process.go:89-110). -/
def processCreate (pr : eProcessor) (d : dEntryCache) (pe : ProbeEvent) : ProcResult :=
  match d.Get ⟨pe.ParentIno, pe.ParentDevMajor, pe.ParentDevMinor⟩ with
  | none => ⟨d, [], [], 0, none⟩
  | some parentEntry =>
    if parentEntry.Depth ≥ 1 ∧ pr.isRecursive = false then ⟨d, [], [], 0, none⟩
    else
      let entry : dEntry :=
        ⟨pe.FileName, pe.FileIno, pe.FileDevMajor, pe.FileDevMinor, 0, none⟩
      let res := d.Add entry (some parentEntry)
      let p := res.1.path res.2
      ⟨res.1, [⟨p, pe.Meta.TID, IN_CREATE⟩], [], 0, pr.emit p pe.Meta.TID IN_CREATE⟩

/-- Branch of `process` for `pe.MaskModify == 1`
(events_process.go:112-123). -/
def processModify (pr : eProcessor) (d : dEntryCache) (pe : ProbeEvent) : ProcResult :=
  match d.Get ⟨pe.FileIno, pe.FileDevMajor, pe.FileDevMinor⟩ with
  | none => ⟨d, [], [], 0, none⟩
  | some entry =>
    let p := d.path entry
    ⟨d, [⟨p, pe.Meta.TID, IN_MODIFY⟩], [], 0, pr.emit p pe.Meta.TID IN_MODIFY⟩

/-- Branch of `process` for `pe.MaskAttrib == 1`
(events_process.go:125-136). -/
def processAttrib (pr : eProcessor) (d : dEntryCache) (pe : ProbeEvent) : ProcResult :=
  match d.Get ⟨pe.FileIno, pe.FileDevMajor, pe.FileDevMinor⟩ with
  | none => ⟨d, [], [], 0, none⟩
  | some entry =>
    let p := d.path entry
    ⟨d, [⟨p, pe.Meta.TID, IN_ATTRIB⟩], [], 0, pr.emit p pe.Meta.TID IN_ATTRIB⟩

/-- Branch of `process` for `pe.MaskMoveFrom == 1`
(events_process.go:138-159). -/
def processMoveFrom (pr : eProcessor) (d : dEntryCache) (pe : ProbeEvent) : ProcResult :=
  match d.Get ⟨pe.ParentIno, pe.ParentDevMajor, pe.ParentDevMinor⟩ with
  | none => ⟨d.MoveClear pe.Meta.TID, [], [], 0, none⟩
  | some parentEntry =>
    if parentEntry.Depth ≥ 1 ∧ pr.isRecursive = false then
      ⟨d.MoveClear pe.Meta.TID, [], [], 0, none⟩
    else
      match d.GetChild parentEntry pe.FileName with
      | none => ⟨d, [], [], 0, none⟩
      | some entry =>
        let entryPath := d.path entry
        ⟨d.MoveFrom pe.Meta.TID entry,
         [⟨entryPath, pe.Meta.TID, IN_MOVED_FROM⟩], [], 0,
         pr.emit entryPath pe.Meta.TID IN_MOVED_FROM⟩

/-- Model of Go's `path/filepath.Clean` component folding for
slash-separated paths: drop empty and "." components, let ".." pop a
preceding component (kept at the start of a relative path, dropped at
the root of an absolute one). -/
def goCleanComponents (rooted : Bool) (cs : List String) : List String :=
  (cs.foldl
    (fun acc c =>
      if c = "" ∨ c = "." then acc
      else if c = ".." then
        match acc with
        | [] => if rooted then [] else [".."]
        | prev :: rest => if prev = ".." then c :: acc else rest
      else c :: acc)
    []).reverse

/-- Whether a path is absolute (begins with the separator). -/
def isRooted (p : String) : Bool :=
  match p.data with
  | [] => false
  | c :: _ => c == '/'

/-- Split a character list at the separator, like `splitOn "/"`. -/
def splitSlashChars : List Char → List (List Char)
  | [] => [[]]
  | c :: cs =>
    let r := splitSlashChars cs
    if c = '/' then [] :: r
    else
      match r with
      | [] => [[c]]
      | h :: t => (c :: h) :: t

/-- The separator-delimited components of a path. -/
def pathComponents (p : String) : List String :=
  (splitSlashChars p.data).map String.mk

/-- Model of Go's `path/filepath.Clean` (unix separator). -/
def goClean (p : String) : String :=
  if p = "" then "." else
  let rooted := isRooted p
  let out := String.intercalate "/" (goCleanComponents rooted (pathComponents p))
  if rooted then (if out = "" then "/" else "/" ++ out)
  else (if out = "" then "." else out)

/-- Model of Go's `path/filepath.Join` on two elements: join the
non-empty elements with a separator and clean the result; all-empty
yields the empty string. -/
def filepathJoin (a b : String) : String :=
  let elems := [a, b].filter (fun s => !(s == ""))
  if elems.isEmpty then "" else goClean (String.intercalate "/" elems)

/-- Branch of `process` for `pe.MaskMoveTo == 1`
(events_process.go:161-188). -/
def processMoveTo (pr : eProcessor) (d : dEntryCache) (pe : ProbeEvent) : ProcResult :=
  match d.Get ⟨pe.ParentIno, pe.ParentDevMajor, pe.ParentDevMinor⟩ with
  | none => ⟨d.MoveClear pe.Meta.TID, [], [], 0, none⟩
  | some parentEntry =>
    if parentEntry.Depth ≥ 1 ∧ pr.isRecursive = false then
      ⟨d.MoveClear pe.Meta.TID, [], [], 0, none⟩
    else
      match d.MoveTo pe.Meta.TID parentEntry pe.FileName with
      | some res =>
        ⟨res.1, [⟨res.2, pe.Meta.TID, IN_MOVED_TO⟩], [], 0,
         pr.emit res.2 pe.Meta.TID IN_MOVED_TO⟩
      | none =>
        let newEntryPath := filepathJoin (d.path parentEntry) pe.FileName
        ⟨d, [], [⟨newEntryPath, parentEntry.Depth + 1, pe.Meta.TID⟩], 0, none⟩

/-- Branch of `process` for `pe.MaskDelete == 1`
(events_process.go:190-217).  `entry.Release()` on the detached entry
is reference management with no further observable effect here. -/
def processDelete (pr : eProcessor) (d : dEntryCache) (pe : ProbeEvent) : ProcResult :=
  match d.Get ⟨pe.ParentIno, pe.ParentDevMajor, pe.ParentDevMinor⟩ with
  | none => ⟨d, [], [], 0, none⟩
  | some parentEntry =>
    if parentEntry.Depth ≥ 1 ∧ pr.isRecursive = false then ⟨d, [], [], 0, none⟩
    else
      match d.GetChild parentEntry pe.FileName with
      | none => ⟨d, [], [], 0, none⟩
      | some entry =>
        let entryPath := d.path entry
        ⟨d.Remove entry, [⟨entryPath, pe.Meta.TID, IN_DELETE⟩], [], 0,
         pr.emit entryPath pe.Meta.TID IN_DELETE⟩

/-- The `switch` dispatch of `eProcessor.process`
(events_process.go:39-220), before the deferred pool release. -/
def processBody (pr : eProcessor) (d : dEntryCache) (pe : ProbeEvent) : ProcResult :=
  if pe.MaskMonitor = 1 then processMonitor pr d pe
  else if pe.MaskCreate = 1 then processCreate pr d pe
  else if pe.MaskModify = 1 then processModify pr d pe
  else if pe.MaskAttrib = 1 then processAttrib pr d pe
  else if pe.MaskMoveFrom = 1 then processMoveFrom pr d pe
  else if pe.MaskMoveTo = 1 then processMoveTo pr d pe
  else if pe.MaskDelete = 1 then processDelete pr d pe
  else ⟨d, [], [], 0, some "unknown event type"⟩

/-- `eProcessor.process` (events_process.go:35-221): run the dispatch
body, then perform the deferred `releaseProbeEvent(pe)` — one pool
release on every exit path, recorded in `released`. -/
def eProcessor.process (pr : eProcessor) (d : dEntryCache) (pe : ProbeEvent) : ProcResult :=
  let r := processBody pr d pe
  { r with released := r.released + 1 }

/-! Concrete instances used to exercise the theorems below on the
spec's literal scenarios (monitored root `/m` with inode 1, child `a`
with inode 2, child directory `sub` with inode 3). -/

/-- Monitored root `/m`, inode 1, depth 0. -/
def mRoot : dEntry := ⟨"/m", 1, 0, 0, 0, none⟩

/-- Child `a` of `/m`, inode 2, depth 1. -/
def mChildA : dEntry := ⟨"a", 2, 0, 0, 1, some ⟨1, 0, 0⟩⟩

/-- Child directory `sub` of `/m`, inode 3, depth 1. -/
def mSub : dEntry := ⟨"sub", 3, 0, 0, 1, some ⟨1, 0, 0⟩⟩

/-- Cache holding `/m` and its child `a`. -/
def mCache : dEntryCache := ⟨[mRoot, mChildA], []⟩

/-- Cache holding only the root `/m`. -/
def mRootCache : dEntryCache := ⟨[mRoot], []⟩

/-- Cache holding `/m` and its child directory `sub`. -/
def mSubCache : dEntryCache := ⟨[mRoot, mSub], []⟩

/-- Cache holding `/m` plus a staged rename slot for TID 7. -/
def mStagedCache : dEntryCache :=
  ⟨[mRoot], [(7, ⟨⟨"z", 9, 0, 0, 1, none⟩, []⟩)]⟩

/-- A traverser that acknowledges no monitor record. -/
def quietTraverser : Nat → Nat → Nat → String → Option MonitorPath :=
  fun _ _ _ _ => none

/-- An emitter that always succeeds. -/
def okEmitter : String → Nat → Nat → Option String := fun _ _ _ => none

/-- An emitter that always fails with "boom". -/
def boomEmitter : String → Nat → Nat → Option String := fun _ _ _ => some "boom"

/-- Non-recursive processor with quiet traverser and succeeding emitter. -/
def prPlain : eProcessor := ⟨quietTraverser, okEmitter, false⟩

/-- Non-recursive processor whose emitter always fails. -/
def prBoom : eProcessor := ⟨quietTraverser, boomEmitter, false⟩

/-- Event construction helper for the concrete scenarios. -/
def mkEvent (mMon mCre mMod mAtt mMF mMT mDel : Nat) (name : String)
    (fi pno tid : Nat) : ProbeEvent :=
  ⟨mMon, mCre, mMod, mAtt, mMF, mMT, mDel, name, fi, 0, 0, pno, 0, 0, ⟨tid⟩⟩

/-- `Create{Parent=1, FileIno=2, FileName="a"}`, TID 3. -/
def evCreateA : ProbeEvent := mkEvent 0 1 0 0 0 0 0 "a" 2 1 3

/-- `MoveFrom{tid=7, Parent=1, FileIno=2, FileName="a"}`. -/
def evMoveFromA : ProbeEvent := mkEvent 0 0 0 0 1 0 0 "a" 2 1 7

/-- `MoveTo{tid=7, Parent=1, FileName="b"}`. -/
def evMoveToB : ProbeEvent := mkEvent 0 0 0 0 0 1 0 "b" 2 1 7

/-- `MoveTo{tid=9, Parent=1, FileName="c"}` (no staged entry). -/
def evMoveToC : ProbeEvent := mkEvent 0 0 0 0 0 1 0 "c" 3 1 9

/-- `MoveFrom{tid=7, Parent=42}` with an unmonitored parent. -/
def evMoveFromOutside : ProbeEvent := mkEvent 0 0 0 0 1 0 0 "q" 8 42 7

/-- `MoveFrom{tid=7, Parent=1, FileName="nope"}` — no such child. -/
def evMoveFromNoChild : ProbeEvent := mkEvent 0 0 0 0 1 0 0 "nope" 8 1 7

/-- `Create{Parent=3, FileName="x"}` under the depth-1 directory `sub`. -/
def evCreateDeep : ProbeEvent := mkEvent 0 1 0 0 0 0 0 "x" 4 3 5

/-- Probe event with no recognized mask set. -/
def evNoMask : ProbeEvent := mkEvent 0 0 0 0 0 0 0 "x" 5 1 4

/-- Monitor event for inode 1 whose parent (inode 99) is not cached. -/
def evMonitorOld : ProbeEvent := mkEvent 1 0 0 0 0 0 0 "old" 1 99 0

/-- Monitor event for inode 6 whose parent (inode 99) is not cached. -/
def evMonitorDeep : ProbeEvent := mkEvent 1 0 0 0 0 0 0 "deep" 6 99 0

/-- Monitor event for inode 1 (`/m`), parent (inode 99) not cached. -/
def evMonitorM : ProbeEvent := mkEvent 1 0 0 0 0 0 0 "m" 1 99 0

/-- Root entry `/old` for the duplicate-monitor counterexample. -/
def oldRoot : dEntry := ⟨"/old", 1, 0, 0, 0, none⟩

/-- Cache holding only `/old`. -/
def oldCache : dEntryCache := ⟨[oldRoot], []⟩

/-- Traverser acknowledging inode 1 as `/new` (depth 0, TID 5, from a
move), used for the duplicate-monitor counterexample. -/
def newTraverser : Nat → Nat → Nat → String → Option MonitorPath :=
  fun i _ _ _ => if i = 1 then some ⟨"/new", 0, 5, true⟩ else none

/-- Recursive processor around `newTraverser`. -/
def prNew : eProcessor := ⟨newTraverser, okEmitter, true⟩

/-- Traverser acknowledging inode 1 as `/m` (depth 0, TID 5, not from a
move). -/
def mTraverser : Nat → Nat → Nat → String → Option MonitorPath :=
  fun i _ _ _ => if i = 1 then some ⟨"/m", 0, 5, false⟩ else none

/-- Recursive processor around `mTraverser`. -/
def prMon : eProcessor := ⟨mTraverser, okEmitter, true⟩

/-- Traverser acknowledging inode 6 as `/deep` at depth 2, used for the
recursion-gate counterexample. -/
def deepTraverser : Nat → Nat → Nat → String → Option MonitorPath :=
  fun i _ _ _ => if i = 6 then some ⟨"/deep", 2, 0, false⟩ else none

/-- Non-recursive processor around `deepTraverser`. -/
def prDeep : eProcessor := ⟨deepTraverser, okEmitter, false⟩

/-- Traverser acknowledging inode 4 (a child of `sub`); the supplied
depth is irrelevant because the processor uses the cached parent's
`Depth + 1`. -/
def subTraverser : Nat → Nat → Nat → String → Option MonitorPath :=
  fun i _ _ _ => if i = 4 then some ⟨"/m/sub/x", 2, 0, false⟩ else none

/-- Non-recursive processor around `subTraverser`. -/
def prSub : eProcessor := ⟨subTraverser, okEmitter, false⟩

/-- Monitor event for inode 4 under the cached parent `sub` (inode 3). -/
def evMonitorX : ProbeEvent := mkEvent 1 0 0 0 0 0 0 "x" 4 3 0

/-- `MoveFrom{tid=7, Parent=1, FileName="sub"}`. -/
def evMoveFromSub : ProbeEvent := mkEvent 0 0 0 0 1 0 0 "sub" 3 1 7

/-- `MoveTo{tid=7, Parent=1, FileName="sub2"}`. -/
def evMoveToSub2 : ProbeEvent := mkEvent 0 0 0 0 0 1 0 "sub2" 3 1 7

/-! Helper lemmas: `process` in terms of `processBody`, and the
dispatch of `processBody` into its branches. -/

/-- `process` is the dispatch body with one more pool release. -/
theorem process_eq (pr : eProcessor) (d : dEntryCache) (pe : ProbeEvent) :
    pr.process d pe =
      ⟨(processBody pr d pe).cache, (processBody pr d pe).emits,
       (processBody pr d pe).walks, (processBody pr d pe).released + 1,
       (processBody pr d pe).err⟩ := rfl

/-- Dispatch: a set `MaskMonitor` selects the monitor branch. -/
theorem processBody_eq_monitor (pr : eProcessor) (d : dEntryCache) (pe : ProbeEvent)
    (h1 : pe.MaskMonitor = 1) : processBody pr d pe = processMonitor pr d pe := by
  unfold processBody; rw [if_pos h1]

/-- Dispatch: a set `MaskCreate` (earlier masks clear) selects the
create branch. -/
theorem processBody_eq_create (pr : eProcessor) (d : dEntryCache) (pe : ProbeEvent)
    (h1 : pe.MaskMonitor ≠ 1) (h2 : pe.MaskCreate = 1) :
    processBody pr d pe = processCreate pr d pe := by
  unfold processBody; rw [if_neg h1, if_pos h2]

/-- Dispatch: a set `MaskModify` (earlier masks clear) selects the
modify branch. -/
theorem processBody_eq_modify (pr : eProcessor) (d : dEntryCache) (pe : ProbeEvent)
    (h1 : pe.MaskMonitor ≠ 1) (h2 : pe.MaskCreate ≠ 1) (h3 : pe.MaskModify = 1) :
    processBody pr d pe = processModify pr d pe := by
  unfold processBody; rw [if_neg h1, if_neg h2, if_pos h3]

/-- Dispatch: a set `MaskAttrib` (earlier masks clear) selects the
attrib branch. -/
theorem processBody_eq_attrib (pr : eProcessor) (d : dEntryCache) (pe : ProbeEvent)
    (h1 : pe.MaskMonitor ≠ 1) (h2 : pe.MaskCreate ≠ 1) (h3 : pe.MaskModify ≠ 1)
    (h4 : pe.MaskAttrib = 1) :
    processBody pr d pe = processAttrib pr d pe := by
  unfold processBody; rw [if_neg h1, if_neg h2, if_neg h3, if_pos h4]

/-- Dispatch: a set `MaskMoveFrom` (earlier masks clear) selects the
move-from branch. -/
theorem processBody_eq_moveFrom (pr : eProcessor) (d : dEntryCache) (pe : ProbeEvent)
    (h1 : pe.MaskMonitor ≠ 1) (h2 : pe.MaskCreate ≠ 1) (h3 : pe.MaskModify ≠ 1)
    (h4 : pe.MaskAttrib ≠ 1) (h5 : pe.MaskMoveFrom = 1) :
    processBody pr d pe = processMoveFrom pr d pe := by
  unfold processBody; rw [if_neg h1, if_neg h2, if_neg h3, if_neg h4, if_pos h5]

/-- Dispatch: a set `MaskMoveTo` (earlier masks clear) selects the
move-to branch. -/
theorem processBody_eq_moveTo (pr : eProcessor) (d : dEntryCache) (pe : ProbeEvent)
    (h1 : pe.MaskMonitor ≠ 1) (h2 : pe.MaskCreate ≠ 1) (h3 : pe.MaskModify ≠ 1)
    (h4 : pe.MaskAttrib ≠ 1) (h5 : pe.MaskMoveFrom ≠ 1) (h6 : pe.MaskMoveTo = 1) :
    processBody pr d pe = processMoveTo pr d pe := by
  unfold processBody
  rw [if_neg h1, if_neg h2, if_neg h3, if_neg h4, if_neg h5, if_pos h6]

/-- Dispatch: a set `MaskDelete` (earlier masks clear) selects the
delete branch. -/
theorem processBody_eq_delete (pr : eProcessor) (d : dEntryCache) (pe : ProbeEvent)
    (h1 : pe.MaskMonitor ≠ 1) (h2 : pe.MaskCreate ≠ 1) (h3 : pe.MaskModify ≠ 1)
    (h4 : pe.MaskAttrib ≠ 1) (h5 : pe.MaskMoveFrom ≠ 1) (h6 : pe.MaskMoveTo ≠ 1)
    (h7 : pe.MaskDelete = 1) :
    processBody pr d pe = processDelete pr d pe := by
  unfold processBody
  rw [if_neg h1, if_neg h2, if_neg h3, if_neg h4, if_neg h5, if_neg h6, if_pos h7]

/-- Dispatch: no recognized mask selects the default branch. -/
theorem processBody_eq_unknown (pr : eProcessor) (d : dEntryCache) (pe : ProbeEvent)
    (h1 : pe.MaskMonitor ≠ 1) (h2 : pe.MaskCreate ≠ 1) (h3 : pe.MaskModify ≠ 1)
    (h4 : pe.MaskAttrib ≠ 1) (h5 : pe.MaskMoveFrom ≠ 1) (h6 : pe.MaskMoveTo ≠ 1)
    (h7 : pe.MaskDelete ≠ 1) :
    processBody pr d pe = ⟨d, [], [], 0, some "unknown event type"⟩ := by
  unfold processBody
  rw [if_neg h1, if_neg h2, if_neg h3, if_neg h4, if_neg h5, if_neg h6, if_neg h7]

/-- The monitor branch performs no pool release of its own. -/
theorem processMonitor_released (pr : eProcessor) (d : dEntryCache) (pe : ProbeEvent) :
    (processMonitor pr d pe).released = 0 := by
  unfold processMonitor
  split
  · rfl
  · dsimp only
    split <;> rfl

/-- The create branch performs no pool release of its own. -/
theorem processCreate_released (pr : eProcessor) (d : dEntryCache) (pe : ProbeEvent) :
    (processCreate pr d pe).released = 0 := by
  unfold processCreate
  split
  · rfl
  · split <;> rfl

/-- The modify branch performs no pool release of its own. -/
theorem processModify_released (pr : eProcessor) (d : dEntryCache) (pe : ProbeEvent) :
    (processModify pr d pe).released = 0 := by
  unfold processModify
  split <;> rfl

/-- The attrib branch performs no pool release of its own. -/
theorem processAttrib_released (pr : eProcessor) (d : dEntryCache) (pe : ProbeEvent) :
    (processAttrib pr d pe).released = 0 := by
  unfold processAttrib
  split <;> rfl

/-- The move-from branch performs no pool release of its own. -/
theorem processMoveFrom_released (pr : eProcessor) (d : dEntryCache) (pe : ProbeEvent) :
    (processMoveFrom pr d pe).released = 0 := by
  unfold processMoveFrom
  split
  · rfl
  · split
    · rfl
    · split <;> rfl

/-- The move-to branch performs no pool release of its own. -/
theorem processMoveTo_released (pr : eProcessor) (d : dEntryCache) (pe : ProbeEvent) :
    (processMoveTo pr d pe).released = 0 := by
  unfold processMoveTo
  split
  · rfl
  · split
    · rfl
    · split <;> rfl

/-- The delete branch performs no pool release of its own. -/
theorem processDelete_released (pr : eProcessor) (d : dEntryCache) (pe : ProbeEvent) :
    (processDelete pr d pe).released = 0 := by
  unfold processDelete
  split
  · rfl
  · split
    · rfl
    · split <;> rfl

/-- The dispatch body performs no pool release of its own. -/
theorem processBody_released (pr : eProcessor) (d : dEntryCache) (pe : ProbeEvent) :
    (processBody pr d pe).released = 0 := by
  unfold processBody
  split
  · exact processMonitor_released pr d pe
  · split
    · exact processCreate_released pr d pe
    · split
      · exact processModify_released pr d pe
      · split
        · exact processAttrib_released pr d pe
        · split
          · exact processMoveFrom_released pr d pe
          · split
            · exact processMoveTo_released pr d pe
            · split
              · exact processDelete_released pr d pe
              · rfl

/-- C3: every probe event passed to `process` is returned to its pool
(`releaseProbeEvent`) exactly once, on every exit path — normal return,
early return in any branch, emitter error, and the unknown-mask
error. -/
theorem c3_release_exactly_once (pr : eProcessor) (d : dEntryCache) (pe : ProbeEvent) :
    (pr.process d pe).released = 1 := by
  rw [process_eq]
  rw [processBody_released pr d pe]

/-- C4: a probe event with none of the recognized masks set makes
`process` return the unknown-event-type error, with no cache mutation,
no emission, no walk, and one pool release. -/
theorem c4_unknown_mask (pr : eProcessor) (d : dEntryCache) (pe : ProbeEvent)
    (h1 : pe.MaskMonitor ≠ 1) (h2 : pe.MaskCreate ≠ 1) (h3 : pe.MaskModify ≠ 1)
    (h4 : pe.MaskAttrib ≠ 1) (h5 : pe.MaskMoveFrom ≠ 1) (h6 : pe.MaskMoveTo ≠ 1)
    (h7 : pe.MaskDelete ≠ 1) :
    pr.process d pe = ⟨d, [], [], 1, some "unknown event type"⟩ := by
  rw [process_eq, processBody_eq_unknown pr d pe h1 h2 h3 h4 h5 h6 h7]

/-- C4 witness: the unknown-mask behaviour on a concrete event with all
mask flags zero, over the cache holding `/m` and `a`. -/
theorem c4_witness :
    prPlain.process mCache evNoMask = ⟨mCache, [], [], 1, some "unknown event type"⟩ :=
  c4_unknown_mask prPlain mCache evNoMask (by decide) (by decide) (by decide)
    (by decide) (by decide) (by decide) (by decide)

/-- C6: a `MaskMoveFrom` or `MaskMoveTo` event whose parent key is not
cached, or whose cached parent fails the recursion gate
(`Depth ≥ 1` with recursion disabled), clears the TID's rename staging
slot, emits nothing, walks nothing, changes nothing else in the cache,
and returns nil. -/
theorem c6_ineligible_parent_clears_slot (pr : eProcessor) (d : dEntryCache)
    (pe : ProbeEvent)
    (hbranch : pe.MaskMonitor ≠ 1 ∧ pe.MaskCreate ≠ 1 ∧ pe.MaskModify ≠ 1 ∧
      pe.MaskAttrib ≠ 1 ∧
      (pe.MaskMoveFrom = 1 ∨ (pe.MaskMoveFrom ≠ 1 ∧ pe.MaskMoveTo = 1)))
    (hpar : d.Get ⟨pe.ParentIno, pe.ParentDevMajor, pe.ParentDevMinor⟩ = none ∨
      ∃ p, d.Get ⟨pe.ParentIno, pe.ParentDevMajor, pe.ParentDevMinor⟩ = some p ∧
        p.Depth ≥ 1 ∧ pr.isRecursive = false) :
    pr.process d pe = ⟨d.MoveClear pe.Meta.TID, [], [], 1, none⟩ := by
  obtain ⟨h1, h2, h3, h4, h5⟩ := hbranch
  rw [process_eq]
  rcases h5 with hmf | ⟨hmf, hmt⟩
  · rw [processBody_eq_moveFrom pr d pe h1 h2 h3 h4 hmf]
    have hb : processMoveFrom pr d pe = ⟨d.MoveClear pe.Meta.TID, [], [], 0, none⟩ := by
      unfold processMoveFrom
      rcases hpar with hnone | ⟨p, hp, hd, hr⟩
      · rw [hnone]
      · rw [hp]
        dsimp only
        rw [if_pos ⟨hd, hr⟩]
    rw [hb]
  · rw [processBody_eq_moveTo pr d pe h1 h2 h3 h4 hmf hmt]
    have hb : processMoveTo pr d pe = ⟨d.MoveClear pe.Meta.TID, [], [], 0, none⟩ := by
      unfold processMoveTo
      rcases hpar with hnone | ⟨p, hp, hd, hr⟩
      · rw [hnone]
      · rw [hp]
        dsimp only
        rw [if_pos ⟨hd, hr⟩]
    rw [hb]

/-- C6 witness: a `MoveFrom` with unmonitored parent (inode 42) clears
the staged slot for TID 7 and does nothing else. -/
theorem c6_witness :
    prPlain.process mStagedCache evMoveFromOutside =
      ⟨mStagedCache.MoveClear 7, [], [], 1, none⟩ :=
  c6_ineligible_parent_clears_slot prPlain mStagedCache evMoveFromOutside
    ⟨by decide, by decide, by decide, by decide, Or.inl (by decide)⟩
    (Or.inl (by decide))

/-- C7: with recursion disabled, a `MaskCreate` or `MaskDelete` event
whose cached parent has `Depth ≥ 1` causes no cache change and no
emission: the gate `parent.Depth >= 1 && !recursive` filters everything
below the immediate children of a monitored root. -/
theorem c7_recursion_gate_filters_deep (pr : eProcessor) (d : dEntryCache)
    (pe : ProbeEvent) (p : dEntry)
    (hrec : pr.isRecursive = false)
    (hbranch : (pe.MaskMonitor ≠ 1 ∧ pe.MaskCreate = 1) ∨
      (pe.MaskMonitor ≠ 1 ∧ pe.MaskCreate ≠ 1 ∧ pe.MaskModify ≠ 1 ∧
       pe.MaskAttrib ≠ 1 ∧ pe.MaskMoveFrom ≠ 1 ∧ pe.MaskMoveTo ≠ 1 ∧
       pe.MaskDelete = 1))
    (hp : d.Get ⟨pe.ParentIno, pe.ParentDevMajor, pe.ParentDevMinor⟩ = some p)
    (hdepth : p.Depth ≥ 1) :
    pr.process d pe = ⟨d, [], [], 1, none⟩ := by
  rw [process_eq]
  rcases hbranch with ⟨h1, h2⟩ | ⟨h1, h2, h3, h4, h5, h6, h7⟩
  · rw [processBody_eq_create pr d pe h1 h2]
    have hb : processCreate pr d pe = ⟨d, [], [], 0, none⟩ := by
      unfold processCreate
      rw [hp]
      dsimp only
      rw [if_pos ⟨hdepth, hrec⟩]
    rw [hb]
  · rw [processBody_eq_delete pr d pe h1 h2 h3 h4 h5 h6 h7]
    have hb : processDelete pr d pe = ⟨d, [], [], 0, none⟩ := by
      unfold processDelete
      rw [hp]
      dsimp only
      rw [if_pos ⟨hdepth, hrec⟩]
    rw [hb]

/-- C7 witness: recursion off, root `/m` with child `sub` of depth 1; a
create under `sub` changes nothing and emits nothing. -/
theorem c7_witness : prPlain.process mSubCache evCreateDeep = ⟨mSubCache, [], [], 1, none⟩ :=
  c7_recursion_gate_filters_deep prPlain mSubCache evCreateDeep mSub (by decide)
    (Or.inl ⟨by decide, by decide⟩) (by decide) (by decide)

/-- C10: a `MaskMoveFrom` event whose cached parent passes the
recursion gate but whose `FileName` names no child of that parent
returns nil with no emission, no walk and no cache mutation at all — in
particular the TID's rename staging slot is left untouched. -/
theorem c10_moveFrom_unknown_child_frame (pr : eProcessor) (d : dEntryCache)
    (pe : ProbeEvent) (p : dEntry)
    (h1 : pe.MaskMonitor ≠ 1) (h2 : pe.MaskCreate ≠ 1) (h3 : pe.MaskModify ≠ 1)
    (h4 : pe.MaskAttrib ≠ 1) (h5 : pe.MaskMoveFrom = 1)
    (hp : d.Get ⟨pe.ParentIno, pe.ParentDevMajor, pe.ParentDevMinor⟩ = some p)
    (hgate : ¬(p.Depth ≥ 1 ∧ pr.isRecursive = false))
    (hchild : d.GetChild p pe.FileName = none) :
    pr.process d pe = ⟨d, [], [], 1, none⟩ := by
  rw [process_eq, processBody_eq_moveFrom pr d pe h1 h2 h3 h4 h5]
  have hb : processMoveFrom pr d pe = ⟨d, [], [], 0, none⟩ := by
    unfold processMoveFrom
    rw [hp]
    dsimp only
    rw [if_neg hgate, hchild]
  rw [hb]

/-- C10 witness: `MoveFrom{tid=7, Parent=1, FileName="nope"}` over the
cache `/m` plus a staged slot for TID 7: the result keeps the cache —
and the staged slot — exactly as they were. -/
theorem c10_witness :
    prPlain.process mStagedCache evMoveFromNoChild = ⟨mStagedCache, [], [], 1, none⟩ :=
  c10_moveFrom_unknown_child_frame prPlain mStagedCache evMoveFromNoChild mRoot
    (by decide) (by decide) (by decide) (by decide) (by decide) (by decide)
    (by decide) (by decide)

/-- C5: a `MaskMoveTo` event whose cached destination parent passes the
recursion gate, when no rename is staged for the event's TID, emits
nothing and schedules exactly one `WalkAsync` with path
`filepath.Join(parent.Path(), FileName)`, depth `parent.Depth + 1` and
the event's TID. -/
theorem c5_moveTo_no_staged_walks (pr : eProcessor) (d : dEntryCache)
    (pe : ProbeEvent) (p : dEntry)
    (h1 : pe.MaskMonitor ≠ 1) (h2 : pe.MaskCreate ≠ 1) (h3 : pe.MaskModify ≠ 1)
    (h4 : pe.MaskAttrib ≠ 1) (h5 : pe.MaskMoveFrom ≠ 1) (h6 : pe.MaskMoveTo = 1)
    (hp : d.Get ⟨pe.ParentIno, pe.ParentDevMajor, pe.ParentDevMinor⟩ = some p)
    (hgate : ¬(p.Depth ≥ 1 ∧ pr.isRecursive = false))
    (hslot : d.moves.find? (fun m => m.1 == pe.Meta.TID) = none) :
    pr.process d pe =
      ⟨d, [], [⟨filepathJoin (d.path p) pe.FileName, p.Depth + 1, pe.Meta.TID⟩],
       1, none⟩ := by
  rw [process_eq, processBody_eq_moveTo pr d pe h1 h2 h3 h4 h5 h6]
  have hb : processMoveTo pr d pe =
      ⟨d, [], [⟨filepathJoin (d.path p) pe.FileName, p.Depth + 1, pe.Meta.TID⟩],
       0, none⟩ := by
    unfold processMoveTo
    rw [hp]
    dsimp only
    rw [if_neg hgate]
    have hmt : d.MoveTo pe.Meta.TID p pe.FileName = none := by
      unfold dEntryCache.MoveTo
      rw [hslot]
    rw [hmt]
  rw [hb]

/-- C5 witness: `MoveTo{tid=9, Parent=1, FileName="c"}` with no staged
entry over the cache `/m` plus `a` schedules `WalkAsync("/m/c", 1, 9)`
and emits nothing. -/
theorem c5_witness :
    prPlain.process mCache evMoveToC = ⟨mCache, [], [⟨"/m/c", 1, 9⟩], 1, none⟩ := by
  have h := c5_moveTo_no_staged_walks prPlain mCache evMoveToC mRoot
    (by decide) (by decide) (by decide) (by decide) (by decide) (by decide)
    (by decide) (by decide) (by decide)
  exact h.trans (by decide)

/-- Monitor branch: the emitter influences only the returned error, and
that error is exactly the emitter's answer on the single call made. -/
theorem processMonitor_emit_contract (pr : eProcessor)
    (f : String → Nat → Nat → Option String) (d : dEntryCache) (pe : ProbeEvent) :
    ((processMonitor { pr with emit := f } d pe).cache = (processMonitor pr d pe).cache ∧
     (processMonitor { pr with emit := f } d pe).emits = (processMonitor pr d pe).emits ∧
     (processMonitor { pr with emit := f } d pe).walks = (processMonitor pr d pe).walks) ∧
    ∀ pc : EmitCall, (processMonitor pr d pe).emits = [pc] →
      (processMonitor pr d pe).err = pr.emit pc.path pc.tid pc.op := by
  unfold processMonitor
  dsimp only
  cases hg : pr.getMonitorPath pe.FileIno pe.FileDevMajor pe.FileDevMinor pe.FileName with
  | none => exact ⟨⟨rfl, rfl, rfl⟩, fun pc h => by simp at h⟩
  | some mp =>
    dsimp only
    by_cases hb : mp.isFromMove = false
    · rw [if_pos hb, if_pos hb]
      exact ⟨⟨rfl, rfl, rfl⟩, fun pc h => by simp at h⟩
    · rw [if_neg hb, if_neg hb]
      refine ⟨⟨rfl, rfl, rfl⟩, fun pc h => ?_⟩
      simp only [List.cons.injEq, and_true] at h
      rw [← h]

/-- Create branch: the emitter influences only the returned error, and
that error is exactly the emitter's answer on the single call made. -/
theorem processCreate_emit_contract (pr : eProcessor)
    (f : String → Nat → Nat → Option String) (d : dEntryCache) (pe : ProbeEvent) :
    ((processCreate { pr with emit := f } d pe).cache = (processCreate pr d pe).cache ∧
     (processCreate { pr with emit := f } d pe).emits = (processCreate pr d pe).emits ∧
     (processCreate { pr with emit := f } d pe).walks = (processCreate pr d pe).walks) ∧
    ∀ pc : EmitCall, (processCreate pr d pe).emits = [pc] →
      (processCreate pr d pe).err = pr.emit pc.path pc.tid pc.op := by
  unfold processCreate
  dsimp only
  cases hg : d.Get ⟨pe.ParentIno, pe.ParentDevMajor, pe.ParentDevMinor⟩ with
  | none => exact ⟨⟨rfl, rfl, rfl⟩, fun pc h => by simp at h⟩
  | some p =>
    dsimp only
    by_cases hgate : p.Depth ≥ 1 ∧ pr.isRecursive = false
    · rw [if_pos hgate, if_pos hgate]
      exact ⟨⟨rfl, rfl, rfl⟩, fun pc h => by simp at h⟩
    · rw [if_neg hgate, if_neg hgate]
      refine ⟨⟨rfl, rfl, rfl⟩, fun pc h => ?_⟩
      simp only [List.cons.injEq, and_true] at h
      rw [← h]

/-- Modify branch: the emitter influences only the returned error, and
that error is exactly the emitter's answer on the single call made. -/
theorem processModify_emit_contract (pr : eProcessor)
    (f : String → Nat → Nat → Option String) (d : dEntryCache) (pe : ProbeEvent) :
    ((processModify { pr with emit := f } d pe).cache = (processModify pr d pe).cache ∧
     (processModify { pr with emit := f } d pe).emits = (processModify pr d pe).emits ∧
     (processModify { pr with emit := f } d pe).walks = (processModify pr d pe).walks) ∧
    ∀ pc : EmitCall, (processModify pr d pe).emits = [pc] →
      (processModify pr d pe).err = pr.emit pc.path pc.tid pc.op := by
  unfold processModify
  dsimp only
  cases hg : d.Get ⟨pe.FileIno, pe.FileDevMajor, pe.FileDevMinor⟩ with
  | none => exact ⟨⟨rfl, rfl, rfl⟩, fun pc h => by simp at h⟩
  | some en =>
    refine ⟨⟨rfl, rfl, rfl⟩, fun pc h => ?_⟩
    simp only [List.cons.injEq, and_true] at h
    rw [← h]

/-- Attrib branch: the emitter influences only the returned error, and
that error is exactly the emitter's answer on the single call made. -/
theorem processAttrib_emit_contract (pr : eProcessor)
    (f : String → Nat → Nat → Option String) (d : dEntryCache) (pe : ProbeEvent) :
    ((processAttrib { pr with emit := f } d pe).cache = (processAttrib pr d pe).cache ∧
     (processAttrib { pr with emit := f } d pe).emits = (processAttrib pr d pe).emits ∧
     (processAttrib { pr with emit := f } d pe).walks = (processAttrib pr d pe).walks) ∧
    ∀ pc : EmitCall, (processAttrib pr d pe).emits = [pc] →
      (processAttrib pr d pe).err = pr.emit pc.path pc.tid pc.op := by
  unfold processAttrib
  dsimp only
  cases hg : d.Get ⟨pe.FileIno, pe.FileDevMajor, pe.FileDevMinor⟩ with
  | none => exact ⟨⟨rfl, rfl, rfl⟩, fun pc h => by simp at h⟩
  | some en =>
    refine ⟨⟨rfl, rfl, rfl⟩, fun pc h => ?_⟩
    simp only [List.cons.injEq, and_true] at h
    rw [← h]

/-- Move-from branch: the emitter influences only the returned error,
and that error is exactly the emitter's answer on the single call
made. -/
theorem processMoveFrom_emit_contract (pr : eProcessor)
    (f : String → Nat → Nat → Option String) (d : dEntryCache) (pe : ProbeEvent) :
    ((processMoveFrom { pr with emit := f } d pe).cache = (processMoveFrom pr d pe).cache ∧
     (processMoveFrom { pr with emit := f } d pe).emits = (processMoveFrom pr d pe).emits ∧
     (processMoveFrom { pr with emit := f } d pe).walks = (processMoveFrom pr d pe).walks) ∧
    ∀ pc : EmitCall, (processMoveFrom pr d pe).emits = [pc] →
      (processMoveFrom pr d pe).err = pr.emit pc.path pc.tid pc.op := by
  unfold processMoveFrom
  dsimp only
  cases hg : d.Get ⟨pe.ParentIno, pe.ParentDevMajor, pe.ParentDevMinor⟩ with
  | none => exact ⟨⟨rfl, rfl, rfl⟩, fun pc h => by simp at h⟩
  | some p =>
    dsimp only
    by_cases hgate : p.Depth ≥ 1 ∧ pr.isRecursive = false
    · rw [if_pos hgate, if_pos hgate]
      exact ⟨⟨rfl, rfl, rfl⟩, fun pc h => by simp at h⟩
    · rw [if_neg hgate, if_neg hgate]
      cases hch : d.GetChild p pe.FileName with
      | none => exact ⟨⟨rfl, rfl, rfl⟩, fun pc h => by simp at h⟩
      | some en =>
        refine ⟨⟨rfl, rfl, rfl⟩, fun pc h => ?_⟩
        simp only [List.cons.injEq, and_true] at h
        rw [← h]

/-- Move-to branch: the emitter influences only the returned error, and
that error is exactly the emitter's answer on the single call made. -/
theorem processMoveTo_emit_contract (pr : eProcessor)
    (f : String → Nat → Nat → Option String) (d : dEntryCache) (pe : ProbeEvent) :
    ((processMoveTo { pr with emit := f } d pe).cache = (processMoveTo pr d pe).cache ∧
     (processMoveTo { pr with emit := f } d pe).emits = (processMoveTo pr d pe).emits ∧
     (processMoveTo { pr with emit := f } d pe).walks = (processMoveTo pr d pe).walks) ∧
    ∀ pc : EmitCall, (processMoveTo pr d pe).emits = [pc] →
      (processMoveTo pr d pe).err = pr.emit pc.path pc.tid pc.op := by
  unfold processMoveTo
  dsimp only
  cases hg : d.Get ⟨pe.ParentIno, pe.ParentDevMajor, pe.ParentDevMinor⟩ with
  | none => exact ⟨⟨rfl, rfl, rfl⟩, fun pc h => by simp at h⟩
  | some p =>
    dsimp only
    by_cases hgate : p.Depth ≥ 1 ∧ pr.isRecursive = false
    · rw [if_pos hgate, if_pos hgate]
      exact ⟨⟨rfl, rfl, rfl⟩, fun pc h => by simp at h⟩
    · rw [if_neg hgate, if_neg hgate]
      cases hmt : d.MoveTo pe.Meta.TID p pe.FileName with
      | none => exact ⟨⟨rfl, rfl, rfl⟩, fun pc h => by simp at h⟩
      | some res =>
        refine ⟨⟨rfl, rfl, rfl⟩, fun pc h => ?_⟩
        simp only [List.cons.injEq, and_true] at h
        rw [← h]

/-- Delete branch: the emitter influences only the returned error, and
that error is exactly the emitter's answer on the single call made. -/
theorem processDelete_emit_contract (pr : eProcessor)
    (f : String → Nat → Nat → Option String) (d : dEntryCache) (pe : ProbeEvent) :
    ((processDelete { pr with emit := f } d pe).cache = (processDelete pr d pe).cache ∧
     (processDelete { pr with emit := f } d pe).emits = (processDelete pr d pe).emits ∧
     (processDelete { pr with emit := f } d pe).walks = (processDelete pr d pe).walks) ∧
    ∀ pc : EmitCall, (processDelete pr d pe).emits = [pc] →
      (processDelete pr d pe).err = pr.emit pc.path pc.tid pc.op := by
  unfold processDelete
  dsimp only
  cases hg : d.Get ⟨pe.ParentIno, pe.ParentDevMajor, pe.ParentDevMinor⟩ with
  | none => exact ⟨⟨rfl, rfl, rfl⟩, fun pc h => by simp at h⟩
  | some p =>
    dsimp only
    by_cases hgate : p.Depth ≥ 1 ∧ pr.isRecursive = false
    · rw [if_pos hgate, if_pos hgate]
      exact ⟨⟨rfl, rfl, rfl⟩, fun pc h => by simp at h⟩
    · rw [if_neg hgate, if_neg hgate]
      cases hch : d.GetChild p pe.FileName with
      | none => exact ⟨⟨rfl, rfl, rfl⟩, fun pc h => by simp at h⟩
      | some en =>
        refine ⟨⟨rfl, rfl, rfl⟩, fun pc h => ?_⟩
        simp only [List.cons.injEq, and_true] at h
        rw [← h]

/-- C8: whenever the emitter's `Emit` returns an error inside
`process`, that error is returned to the caller (for every branch the
returned error is exactly the emitter's answer on the one call made),
and the cache mutation performed before the emit is not rolled back:
the resulting cache, emissions and walks are the same whatever the
emitter answers. -/
theorem c8_emit_error_surfaced_not_rolled_back (pr : eProcessor)
    (f : String → Nat → Nat → Option String) (d : dEntryCache) (pe : ProbeEvent) :
    ((({ pr with emit := f } : eProcessor).process d pe).cache = (pr.process d pe).cache ∧
     (({ pr with emit := f } : eProcessor).process d pe).emits = (pr.process d pe).emits ∧
     (({ pr with emit := f } : eProcessor).process d pe).walks = (pr.process d pe).walks) ∧
    ∀ pc : EmitCall, (pr.process d pe).emits = [pc] →
      (pr.process d pe).err = pr.emit pc.path pc.tid pc.op := by
  rw [process_eq, process_eq]
  dsimp only
  by_cases h1 : pe.MaskMonitor = 1
  · rw [processBody_eq_monitor _ _ _ h1, processBody_eq_monitor _ _ _ h1]
    exact processMonitor_emit_contract pr f d pe
  by_cases h2 : pe.MaskCreate = 1
  · rw [processBody_eq_create _ _ _ h1 h2, processBody_eq_create _ _ _ h1 h2]
    exact processCreate_emit_contract pr f d pe
  by_cases h3 : pe.MaskModify = 1
  · rw [processBody_eq_modify _ _ _ h1 h2 h3, processBody_eq_modify _ _ _ h1 h2 h3]
    exact processModify_emit_contract pr f d pe
  by_cases h4 : pe.MaskAttrib = 1
  · rw [processBody_eq_attrib _ _ _ h1 h2 h3 h4, processBody_eq_attrib _ _ _ h1 h2 h3 h4]
    exact processAttrib_emit_contract pr f d pe
  by_cases h5 : pe.MaskMoveFrom = 1
  · rw [processBody_eq_moveFrom _ _ _ h1 h2 h3 h4 h5,
      processBody_eq_moveFrom _ _ _ h1 h2 h3 h4 h5]
    exact processMoveFrom_emit_contract pr f d pe
  by_cases h6 : pe.MaskMoveTo = 1
  · rw [processBody_eq_moveTo _ _ _ h1 h2 h3 h4 h5 h6,
      processBody_eq_moveTo _ _ _ h1 h2 h3 h4 h5 h6]
    exact processMoveTo_emit_contract pr f d pe
  by_cases h7 : pe.MaskDelete = 1
  · rw [processBody_eq_delete _ _ _ h1 h2 h3 h4 h5 h6 h7,
      processBody_eq_delete _ _ _ h1 h2 h3 h4 h5 h6 h7]
    exact processDelete_emit_contract pr f d pe
  rw [processBody_eq_unknown _ _ _ h1 h2 h3 h4 h5 h6 h7,
    processBody_eq_unknown _ _ _ h1 h2 h3 h4 h5 h6 h7]
  exact ⟨⟨rfl, rfl, rfl⟩, fun pc h => by simp at h⟩

/-- C8 witness: with an always-failing emitter, a create under `/m`
leaves the same mutated cache as with a succeeding emitter, and the
"boom" error is returned. -/
theorem c8_witness :
    (prBoom.process mRootCache evCreateA).emits = [⟨"/m/a", 3, IN_CREATE⟩] ∧
    (prBoom.process mRootCache evCreateA).err = some "boom" ∧
    (({ prBoom with emit := okEmitter } : eProcessor).process mRootCache evCreateA).cache =
      (prBoom.process mRootCache evCreateA).cache := by
  have h := c8_emit_error_surfaced_not_rolled_back prBoom okEmitter mRootCache evCreateA
  refine ⟨by decide, ?_, h.1.1⟩
  have he := h.2 ⟨"/m/a", 3, IN_CREATE⟩ (by decide)
  exact he.trans rfl

/-- The reconstructed path of a parentless entry is its `Name`,
whatever the fuel. -/
theorem path_of_rootEntry (c : dEntryCache) (nm : String) (i dM dm dep : Nat) :
    c.path ⟨nm, i, dM, dm, dep, none⟩ = nm := by
  unfold dEntryCache.path pathWithFuel
  rfl

/-- Shape of `Add` under a parent: either a no-op or a cons of the
re-parented entry. -/
theorem Add_parent_entries (c : dEntryCache) (entry p : dEntry) :
    (c.Add entry (some p)).1.entries = c.entries ∨
    (c.Add entry (some p)).1.entries =
      { entry with Parent := some p.key, Depth := p.Depth + 1 } :: c.entries := by
  unfold dEntryCache.Add
  cases c.Get entry.key with
  | some q => exact Or.inl rfl
  | none => exact Or.inr rfl

/-- Shape of a successful `MoveTo`: the staged slot for the TID is in
the move table, and the new index is the re-attached entry followed by
its re-depthed descendants and the old index. -/
theorem MoveTo_some_entries (c : dEntryCache) (tid : Nat) (np : dEntry) (nn : String)
    (res : dEntryCache × String) (h : c.MoveTo tid np nn = some res) :
    ∃ m ∈ c.moves, res.1.entries =
      reattachEntry m.2 np nn :: (reattachDescendants m.2 np ++ c.entries) := by
  cases hf : c.moves.find? (fun m => m.1 == tid) with
  | none =>
    have hnone : c.MoveTo tid np nn = none := by
      unfold dEntryCache.MoveTo; rw [hf]
    rw [hnone] at h
    cases h
  | some m =>
    have hsome : c.MoveTo tid np nn =
        some (⟨reattachEntry m.2 np nn :: (reattachDescendants m.2 np ++ c.entries),
               c.moves.filter (fun x => !(x.1 == tid))⟩,
              pathWithFuel
                (reattachEntry m.2 np nn :: (reattachDescendants m.2 np ++ c.entries))
                (reattachEntry m.2 np nn).Depth (reattachEntry m.2 np nn)) := by
      unfold dEntryCache.MoveTo; rw [hf]
    rw [hsome] at h
    refine ⟨m, List.mem_of_find?_eq_some hf, ?_⟩
    rw [← Option.some.inj h]

/-- Membership in the re-depthed descendants comes from a staged
descendant. -/
theorem mem_reattachDescendants (s : stagedMove) (np : dEntry) (en : dEntry)
    (h : en ∈ reattachDescendants s np) :
    ∃ x ∈ s.descendants,
      en = { x with Depth := np.Depth + 1 + (x.Depth - s.entry.Depth) } := by
  obtain ⟨x, hx, hxe⟩ := List.mem_map.mp h
  exact ⟨x, hx, hxe.symm⟩

/-- The move-from branch never adds an index entry. -/
theorem processMoveFrom_entries_subset (pr : eProcessor) (d : dEntryCache)
    (pe : ProbeEvent) :
    ∀ en ∈ (processMoveFrom pr d pe).cache.entries, en ∈ d.entries := by
  unfold processMoveFrom
  cases hg : d.Get ⟨pe.ParentIno, pe.ParentDevMajor, pe.ParentDevMinor⟩ with
  | none => exact fun en hen => hen
  | some p =>
    dsimp only
    by_cases hgate : p.Depth ≥ 1 ∧ pr.isRecursive = false
    · rw [if_pos hgate]; exact fun en hen => hen
    · rw [if_neg hgate]
      cases hch : d.GetChild p pe.FileName with
      | none => exact fun en hen => hen
      | some x =>
        intro en hen
        replace hen : en ∈ d.entries.filter
            (fun e => !(inSubtree d.entries d.entries.length x.key e)) := hen
        exact (List.mem_filter.mp hen).1

/-- The delete branch never adds an index entry. -/
theorem processDelete_entries_subset (pr : eProcessor) (d : dEntryCache)
    (pe : ProbeEvent) :
    ∀ en ∈ (processDelete pr d pe).cache.entries, en ∈ d.entries := by
  unfold processDelete
  cases hg : d.Get ⟨pe.ParentIno, pe.ParentDevMajor, pe.ParentDevMinor⟩ with
  | none => exact fun en hen => hen
  | some p =>
    dsimp only
    by_cases hgate : p.Depth ≥ 1 ∧ pr.isRecursive = false
    · rw [if_pos hgate]; exact fun en hen => hen
    · rw [if_neg hgate]
      cases hch : d.GetChild p pe.FileName with
      | none => exact fun en hen => hen
      | some x =>
        intro en hen
        replace hen : en ∈ d.entries.filter
            (fun e => !(inSubtree d.entries d.entries.length x.key e)) := hen
        exact (List.mem_filter.mp hen).1

/-- Shape of the move-to branch's index: every entry is an old one, or
stems from a re-attached staged subtree under an eligible cached
parent. -/
theorem processMoveTo_entries_shape (pr : eProcessor) (d : dEntryCache)
    (pe : ProbeEvent) :
    ∀ en ∈ (processMoveTo pr d pe).cache.entries, en ∈ d.entries ∨
      ∃ p m, d.Get ⟨pe.ParentIno, pe.ParentDevMajor, pe.ParentDevMinor⟩ = some p ∧
        ¬(p.Depth ≥ 1 ∧ pr.isRecursive = false) ∧ m ∈ d.moves ∧
        (en = reattachEntry m.2 p pe.FileName ∨
         ∃ x ∈ m.2.descendants,
           en = { x with Depth := p.Depth + 1 + (x.Depth - m.2.entry.Depth) }) := by
  unfold processMoveTo
  cases hg : d.Get ⟨pe.ParentIno, pe.ParentDevMajor, pe.ParentDevMinor⟩ with
  | none => exact fun en hen => Or.inl hen
  | some p =>
    dsimp only
    by_cases hgate : p.Depth ≥ 1 ∧ pr.isRecursive = false
    · rw [if_pos hgate]; exact fun en hen => Or.inl hen
    · rw [if_neg hgate]
      cases hmt : d.MoveTo pe.Meta.TID p pe.FileName with
      | none => exact fun en hen => Or.inl hen
      | some res =>
        intro en hen
        replace hen : en ∈ res.1.entries := hen
        obtain ⟨m, hm, hent⟩ := MoveTo_some_entries d pe.Meta.TID p pe.FileName res hmt
        rw [hent] at hen
        rcases List.mem_cons.mp hen with hc | hc
        · exact Or.inr ⟨p, m, rfl, hgate, hm, Or.inl hc⟩
        · rcases List.mem_append.mp hc with hc2 | hc2
          · obtain ⟨x, hx, hxe⟩ := mem_reattachDescendants m.2 p en hc2
            exact Or.inr ⟨p, m, rfl, hgate, hm, Or.inr ⟨x, hx, hxe⟩⟩
          · exact Or.inl hc2

/-- C2 (amended): with recursion disabled, a `process` call on a
non-`MaskMonitor` event adds no cache entry of `Depth ≥ 2` except the
staged descendants a `MaskMoveTo` re-attaches: every entry of the
resulting index is an old entry, or has `Depth ≤ 1` (the create
branch's new child and the re-attached staged root, whose parent the
gate forces to depth 0), or is a staged descendant re-attached by a
`MaskMoveTo` at depth `1 + (its depth − the staged root's depth)`,
which is `≥ 2` for a genuine sub-subtree.  The `MaskMonitor` branch is
not gated at all and creates entries of arbitrary depth (see the
counterexample, which shows both gaps). -/
theorem c2_non_monitor_depth_bound (pr : eProcessor) (d : dEntryCache) (pe : ProbeEvent)
    (hrec : pr.isRecursive = false) (hmon : pe.MaskMonitor ≠ 1) :
    ∀ en ∈ (pr.process d pe).cache.entries,
      en ∈ d.entries ∨ en.Depth ≤ 1 ∨
      (pe.MaskMoveTo = 1 ∧
        ∃ p, d.Get ⟨pe.ParentIno, pe.ParentDevMajor, pe.ParentDevMinor⟩ = some p ∧
          p.Depth = 0 ∧
          ∃ m ∈ d.moves, ∃ x ∈ m.2.descendants,
            en = { x with Depth := p.Depth + 1 + (x.Depth - m.2.entry.Depth) }) := by
  intro en hen
  rw [process_eq] at hen
  replace hen : en ∈ (processBody pr d pe).cache.entries := hen
  by_cases h2 : pe.MaskCreate = 1
  · rw [processBody_eq_create pr d pe hmon h2] at hen
    cases hg : d.Get ⟨pe.ParentIno, pe.ParentDevMajor, pe.ParentDevMinor⟩ with
    | none =>
      have hb : (processCreate pr d pe).cache = d := by
        unfold processCreate; rw [hg]
      rw [hb] at hen
      exact Or.inl hen
    | some p =>
      by_cases hgate : p.Depth ≥ 1 ∧ pr.isRecursive = false
      · have hb : (processCreate pr d pe).cache = d := by
          unfold processCreate; rw [hg]; dsimp only; rw [if_pos hgate]
        rw [hb] at hen
        exact Or.inl hen
      · have hb : (processCreate pr d pe).cache =
            (d.Add ⟨pe.FileName, pe.FileIno, pe.FileDevMajor, pe.FileDevMinor, 0, none⟩
              (some p)).1 := by
          unfold processCreate; rw [hg]; dsimp only; rw [if_neg hgate]
        rw [hb] at hen
        rcases Add_parent_entries d
            ⟨pe.FileName, pe.FileIno, pe.FileDevMajor, pe.FileDevMinor, 0, none⟩ p with
          ha | ha
        · rw [ha] at hen
          exact Or.inl hen
        · rw [ha] at hen
          rcases List.mem_cons.mp hen with hc | hc
          · subst hc
            refine Or.inr (Or.inl ?_)
            have hp0 : p.Depth = 0 := by
              rcases Nat.eq_zero_or_pos p.Depth with hz | hpos
              · exact hz
              · exact absurd ⟨hpos, hrec⟩ hgate
            show p.Depth + 1 ≤ 1
            omega
          · exact Or.inl hc
  by_cases h3 : pe.MaskModify = 1
  · rw [processBody_eq_modify pr d pe hmon h2 h3] at hen
    have hb : (processModify pr d pe).cache = d := by
      unfold processModify; split <;> rfl
    rw [hb] at hen
    exact Or.inl hen
  by_cases h4 : pe.MaskAttrib = 1
  · rw [processBody_eq_attrib pr d pe hmon h2 h3 h4] at hen
    have hb : (processAttrib pr d pe).cache = d := by
      unfold processAttrib; split <;> rfl
    rw [hb] at hen
    exact Or.inl hen
  by_cases h5 : pe.MaskMoveFrom = 1
  · rw [processBody_eq_moveFrom pr d pe hmon h2 h3 h4 h5] at hen
    exact Or.inl (processMoveFrom_entries_subset pr d pe en hen)
  by_cases h6 : pe.MaskMoveTo = 1
  · rw [processBody_eq_moveTo pr d pe hmon h2 h3 h4 h5 h6] at hen
    rcases processMoveTo_entries_shape pr d pe en hen with hold | hnew
    · exact Or.inl hold
    · obtain ⟨p, m, hgq, hgate, hm, hcase⟩ := hnew
      have hp0 : p.Depth = 0 := by
        rcases Nat.eq_zero_or_pos p.Depth with hz | hpos
        · exact hz
        · exact absurd ⟨hpos, hrec⟩ hgate
      rcases hcase with hc | ⟨x, hx, hc⟩
      · subst hc
        refine Or.inr (Or.inl ?_)
        show p.Depth + 1 ≤ 1
        omega
      · exact Or.inr (Or.inr ⟨h6, p, hgq, hp0, m, hm, x, hx, hc⟩)
  by_cases h7 : pe.MaskDelete = 1
  · rw [processBody_eq_delete pr d pe hmon h2 h3 h4 h5 h6 h7] at hen
    exact Or.inl (processDelete_entries_subset pr d pe en hen)
  rw [processBody_eq_unknown pr d pe hmon h2 h3 h4 h5 h6 h7] at hen
  exact Or.inl hen

/-- C2 witness: with recursion off, the entry created under the root of
the root-only cache is old, shallow, or a re-attached staged
descendant. -/
theorem c2_witness :
    (⟨"a", 2, 0, 0, 1, some ⟨1, 0, 0⟩⟩ : dEntry) ∈ mRootCache.entries ∨
    (⟨"a", 2, 0, 0, 1, some ⟨1, 0, 0⟩⟩ : dEntry).Depth ≤ 1 ∨
    (evCreateA.MaskMoveTo = 1 ∧
      ∃ p, mRootCache.Get
          ⟨evCreateA.ParentIno, evCreateA.ParentDevMajor, evCreateA.ParentDevMinor⟩ =
          some p ∧
        p.Depth = 0 ∧
        ∃ m ∈ mRootCache.moves, ∃ x ∈ m.2.descendants,
          (⟨"a", 2, 0, 0, 1, some ⟨1, 0, 0⟩⟩ : dEntry) =
            { x with Depth := p.Depth + 1 + (x.Depth - m.2.entry.Depth) }) :=
  c2_non_monitor_depth_bound prPlain mRootCache evCreateA rfl (by decide)
    ⟨"a", 2, 0, 0, 1, some ⟨1, 0, 0⟩⟩ (by decide)

/-- C2 counterexample: with recursion disabled (`isRecursive = false`)
the claim fails twice.  First, a `MaskMonitor` event acknowledged by
the traverser at depth 2 creates a cache entry with `Depth = 2`.
Second, on a run produced by the processor itself — a monitor record
for `x` under the cached depth-1 directory `sub` (creating `x` at
depth 2), then `MoveFrom{tid=7, sub}` (staging `sub` with its deeper
descendant `x`) — the following `MaskMoveTo` re-attaches `x`, adding a
`Depth = 2` entry that was absent before the call. -/
theorem c2_counterexample :
    prDeep.isRecursive = false ∧
    (prDeep.process newDirEntryCache evMonitorDeep).cache.entries =
      [⟨"/deep", 6, 0, 0, 2, none⟩] ∧
    prSub.isRecursive = false ∧
    evMoveToSub2.MaskMoveTo = 1 ∧ evMoveToSub2.MaskMonitor ≠ 1 ∧
    ((⟨"x", 4, 0, 0, 2, some ⟨3, 0, 0⟩⟩ : dEntry) ∉
      (prSub.process (prSub.process mSubCache evMonitorX).cache
        evMoveFromSub).cache.entries) ∧
    ((⟨"x", 4, 0, 0, 2, some ⟨3, 0, 0⟩⟩ : dEntry) ∈
      (prSub.process
        (prSub.process (prSub.process mSubCache evMonitorX).cache
          evMoveFromSub).cache
        evMoveToSub2).cache.entries) := by decide

/-- C9 (amended): a `MaskMonitor` event acknowledged by
`GetMonitorPath` whose `DKey` is already cached leaves the cache
unchanged and schedules no walk; it emits nothing unless `isFromMove`
is set, in which case it emits one `IN_MOVED_TO` with the monitor
record's TID — at the cached entry's reconstructed path when the
event's parent is cached, but at the monitor record's `fullPath` when
the parent is not cached. -/
theorem c9_duplicate_monitor_no_mutation (pr : eProcessor) (d : dEntryCache)
    (pe : ProbeEvent) (mp : MonitorPath) (en : dEntry)
    (h1 : pe.MaskMonitor = 1)
    (h2 : pr.getMonitorPath pe.FileIno pe.FileDevMajor pe.FileDevMinor pe.FileName =
      some mp)
    (h3 : d.Get ⟨pe.FileIno, pe.FileDevMajor, pe.FileDevMinor⟩ = some en) :
    (pr.process d pe).cache = d ∧ (pr.process d pe).walks = [] ∧
    (mp.isFromMove = false → (pr.process d pe).emits = []) ∧
    (mp.isFromMove = true ∧
        d.Get ⟨pe.ParentIno, pe.ParentDevMajor, pe.ParentDevMinor⟩ ≠ none →
      (pr.process d pe).emits = [⟨d.path en, mp.tid, IN_MOVED_TO⟩]) ∧
    (mp.isFromMove = true ∧
        d.Get ⟨pe.ParentIno, pe.ParentDevMajor, pe.ParentDevMinor⟩ = none →
      (pr.process d pe).emits = [⟨mp.fullPath, mp.tid, IN_MOVED_TO⟩]) := by
  have hkey : en.key = (⟨pe.FileIno, pe.FileDevMajor, pe.FileDevMinor⟩ : dKey) := by
    have h3f : d.entries.find?
        (fun e => e.key == (⟨pe.FileIno, pe.FileDevMajor, pe.FileDevMinor⟩ : dKey)) =
        some en := h3
    have hbq := List.find?_some h3f
    exact eq_of_beq hbq
  rw [process_eq, processBody_eq_monitor pr d pe h1]
  unfold processMonitor
  rw [h2]
  dsimp only
  cases hpar : d.Get ⟨pe.ParentIno, pe.ParentDevMajor, pe.ParentDevMinor⟩ with
  | none =>
    have hAdd : d.Add
        ⟨mp.fullPath, pe.FileIno, pe.FileDevMajor, pe.FileDevMinor, mp.depth, none⟩
        none =
        (d, ⟨mp.fullPath, pe.FileIno, pe.FileDevMajor, pe.FileDevMinor, mp.depth, none⟩) := by
      unfold dEntryCache.Add
      rw [show dEntry.key
          ⟨mp.fullPath, pe.FileIno, pe.FileDevMajor, pe.FileDevMinor, mp.depth, none⟩ =
          (⟨pe.FileIno, pe.FileDevMajor, pe.FileDevMinor⟩ : dKey) from rfl, h3]
    rw [hAdd]
    cases hb : mp.isFromMove with
    | false =>
      rw [if_pos rfl]
      exact ⟨rfl, rfl, fun _ => rfl, fun hx => Bool.noConfusion hx.1,
        fun hx => Bool.noConfusion hx.1⟩
    | true =>
      rw [if_neg (fun hf => Bool.noConfusion hf)]
      refine ⟨rfl, rfl, fun hx => Bool.noConfusion hx,
        fun hx => absurd rfl hx.2, fun _ => ?_⟩
      dsimp only
      rw [path_of_rootEntry]
  | some p =>
    rw [h3]
    dsimp only
    have hAdd : d.Add en (some p) = (d, en) := by
      unfold dEntryCache.Add
      rw [hkey, h3]
    rw [hAdd]
    cases hb : mp.isFromMove with
    | false =>
      rw [if_pos rfl]
      exact ⟨rfl, rfl, fun _ => rfl, fun hx => Bool.noConfusion hx.1,
        fun hx => Bool.noConfusion hx.1⟩
    | true =>
      rw [if_neg (fun hf => Bool.noConfusion hf)]
      exact ⟨rfl, rfl, fun hx => Bool.noConfusion hx,
        fun _ => rfl, fun hx => Option.noConfusion hx.2⟩

/-- C9 witness: a duplicate monitor record for the cached root `/m`
(parent not cached, `isFromMove = false`) changes nothing and emits
nothing. -/
theorem c9_witness :
    (prMon.process mCache evMonitorM).cache = mCache ∧
    (prMon.process mCache evMonitorM).emits = [] := by
  have h := c9_duplicate_monitor_no_mutation prMon mCache evMonitorM
    ⟨"/m", 0, 5, false⟩ mRoot (by decide) (by decide) (by decide)
  exact ⟨h.1, h.2.2.1 rfl⟩

/-- C9 counterexample: the `DKey` of `/old` is cached, the event's
parent is not; with `isFromMove` set the processor emits at the
traverser's `fullPath` `/new`, not at the cached entry's reconstructed
path `/old` — and the claim's "at the entry's reconstructed path" fails
as stated. -/
theorem c9_counterexample :
    (prNew.process oldCache evMonitorOld).cache = oldCache ∧
    oldCache.Get ⟨1, 0, 0⟩ = some oldRoot ∧
    (prNew.process oldCache evMonitorOld).emits = [⟨"/new", 5, IN_MOVED_TO⟩] ∧
    oldCache.path oldRoot = "/old" ∧
    ¬("/new" = "/old") := by decide

/-- A filter over a list on which the predicate is everywhere false is
empty. -/
theorem filter_eq_nil_of_false {α : Type} (p : α → Bool) (l : List α)
    (h : ∀ a ∈ l, p a = false) : l.filter p = [] := by
  induction l with
  | nil => rfl
  | cons a l ih =>
    rw [List.filter_cons, h a (List.mem_cons_self a l)]
    exact ih (fun b hb => h b (List.mem_cons_of_mem a hb))

/-- Descendant records in a staged slot never carry the staged root's
key. -/
theorem stagedOf_descendant_key (c : dEntryCache) (X : dEntry) :
    ∀ y ∈ reattachDescendants (stagedOf c X) P, (y.key == X.key) = false := by
  intro y hy
  obtain ⟨x, hx, hxe⟩ := mem_reattachDescendants _ _ _ hy
  replace hx : x ∈ (c.entries.filter
      (fun e => inSubtree c.entries c.entries.length X.key e)).filter
      (fun e => !(e.key == X.key)) := hx
  have hxk : (x.key == X.key) = false := by
    have h2 := (List.mem_filter.mp hx).2
    simpa using h2
  rw [hxe]
  exact hxk

/-- Index entries surviving a `MoveFrom` never carry the detached
entry's key. -/
theorem MoveFrom_entries_key (c : dEntryCache) (tid : Nat) (X : dEntry) :
    ∀ y ∈ (c.MoveFrom tid X).entries, (y.key == X.key) = false := by
  intro y hy
  replace hy : y ∈ c.entries.filter
      (fun e => !(inSubtree c.entries c.entries.length X.key e)) := hy
  have h2 : inSubtree c.entries c.entries.length X.key y = false := by
    simpa using (List.mem_filter.mp hy).2
  unfold inSubtree at h2
  exact (Bool.or_eq_false_iff.mp h2).1

/-- C1: a `MaskMoveFrom` that detaches a cached child `X` of an
eligible cached parent, followed (same TID) by a `MaskMoveTo` whose
destination parent `P` is cached and eligible with new basename `N`,
leaves a single entry for `X`'s key — named `N`, attached under `P` —
and the two calls emit exactly `IN_MOVED_FROM` at `X`'s old path and
then `IN_MOVED_TO` at the new path. -/
theorem c1_rename_pair (pr : eProcessor) (d : dEntryCache) (pe1 pe2 : ProbeEvent)
    (P0 X P : dEntry)
    (m1a : pe1.MaskMonitor ≠ 1) (m1b : pe1.MaskCreate ≠ 1) (m1c : pe1.MaskModify ≠ 1)
    (m1d : pe1.MaskAttrib ≠ 1) (m1e : pe1.MaskMoveFrom = 1)
    (hp1 : d.Get ⟨pe1.ParentIno, pe1.ParentDevMajor, pe1.ParentDevMinor⟩ = some P0)
    (hg1 : ¬(P0.Depth ≥ 1 ∧ pr.isRecursive = false))
    (hx : d.GetChild P0 pe1.FileName = some X)
    (m2a : pe2.MaskMonitor ≠ 1) (m2b : pe2.MaskCreate ≠ 1) (m2c : pe2.MaskModify ≠ 1)
    (m2d : pe2.MaskAttrib ≠ 1) (m2e : pe2.MaskMoveFrom ≠ 1) (m2f : pe2.MaskMoveTo = 1)
    (htid : pe2.Meta.TID = pe1.Meta.TID)
    (hp2 : (pr.process d pe1).cache.Get
        ⟨pe2.ParentIno, pe2.ParentDevMajor, pe2.ParentDevMinor⟩ = some P)
    (hg2 : ¬(P.Depth ≥ 1 ∧ pr.isRecursive = false)) :
    ((pr.process (pr.process d pe1).cache pe2).cache.entries.filter
        (fun en => en.key == X.key)) =
      [⟨pe2.FileName, X.Ino, X.DevMajor, X.DevMinor, P.Depth + 1, some P.key⟩] ∧
    (pr.process d pe1).emits = [⟨d.path X, pe1.Meta.TID, IN_MOVED_FROM⟩] ∧
    (pr.process (pr.process d pe1).cache pe2).emits =
      [⟨(pr.process (pr.process d pe1).cache pe2).cache.path
          ⟨pe2.FileName, X.Ino, X.DevMajor, X.DevMinor, P.Depth + 1, some P.key⟩,
        pe1.Meta.TID, IN_MOVED_TO⟩] := by
  have e1 : pr.process d pe1 =
      ⟨d.MoveFrom pe1.Meta.TID X, [⟨d.path X, pe1.Meta.TID, IN_MOVED_FROM⟩], [], 1,
       pr.emit (d.path X) pe1.Meta.TID IN_MOVED_FROM⟩ := by
    rw [process_eq, processBody_eq_moveFrom pr d pe1 m1a m1b m1c m1d m1e]
    unfold processMoveFrom
    rw [hp1]
    dsimp only
    rw [if_neg hg1, hx]
  rw [e1] at hp2
  replace hp2 : (d.MoveFrom pe1.Meta.TID X).Get
      ⟨pe2.ParentIno, pe2.ParentDevMajor, pe2.ParentDevMinor⟩ = some P := hp2
  have hfind : (d.MoveFrom pe1.Meta.TID X).moves.find?
      (fun m => m.1 == pe1.Meta.TID) = some (pe1.Meta.TID, stagedOf d X) := by
    show List.find? (fun m => m.1 == pe1.Meta.TID)
        ((pe1.Meta.TID, stagedOf d X) ::
          d.moves.filter (fun m => !(m.1 == pe1.Meta.TID))) =
      some (pe1.Meta.TID, stagedOf d X)
    exact List.find?_cons_of_pos _ (by simp)
  have e2mt : (d.MoveFrom pe1.Meta.TID X).MoveTo pe1.Meta.TID P pe2.FileName =
      some (⟨reattachEntry (stagedOf d X) P pe2.FileName ::
               (reattachDescendants (stagedOf d X) P ++
                (d.MoveFrom pe1.Meta.TID X).entries),
             (d.MoveFrom pe1.Meta.TID X).moves.filter
               (fun m => !(m.1 == pe1.Meta.TID))⟩,
            pathWithFuel
              (reattachEntry (stagedOf d X) P pe2.FileName ::
                (reattachDescendants (stagedOf d X) P ++
                 (d.MoveFrom pe1.Meta.TID X).entries))
              (reattachEntry (stagedOf d X) P pe2.FileName).Depth
              (reattachEntry (stagedOf d X) P pe2.FileName)) := by
    unfold dEntryCache.MoveTo
    rw [hfind]
  have e2 : pr.process (d.MoveFrom pe1.Meta.TID X) pe2 =
      ⟨⟨reattachEntry (stagedOf d X) P pe2.FileName ::
          (reattachDescendants (stagedOf d X) P ++
           (d.MoveFrom pe1.Meta.TID X).entries),
        (d.MoveFrom pe1.Meta.TID X).moves.filter
          (fun m => !(m.1 == pe1.Meta.TID))⟩,
       [⟨pathWithFuel
           (reattachEntry (stagedOf d X) P pe2.FileName ::
             (reattachDescendants (stagedOf d X) P ++
              (d.MoveFrom pe1.Meta.TID X).entries))
           (reattachEntry (stagedOf d X) P pe2.FileName).Depth
           (reattachEntry (stagedOf d X) P pe2.FileName),
         pe1.Meta.TID, IN_MOVED_TO⟩], [], 1,
       pr.emit
         (pathWithFuel
           (reattachEntry (stagedOf d X) P pe2.FileName ::
             (reattachDescendants (stagedOf d X) P ++
              (d.MoveFrom pe1.Meta.TID X).entries))
           (reattachEntry (stagedOf d X) P pe2.FileName).Depth
           (reattachEntry (stagedOf d X) P pe2.FileName))
         pe1.Meta.TID IN_MOVED_TO⟩ := by
    rw [process_eq, processBody_eq_moveTo pr _ pe2 m2a m2b m2c m2d m2e m2f]
    unfold processMoveTo
    rw [hp2]
    dsimp only
    rw [if_neg hg2, htid, e2mt]
  rw [e1]
  dsimp only
  rw [e2]
  dsimp only
  refine ⟨?_, rfl, rfl⟩
  rw [List.filter_cons_of_pos (by simp [dEntry.key, reattachEntry, stagedOf]),
    List.filter_append,
    filter_eq_nil_of_false _ _ (stagedOf_descendant_key d X),
    filter_eq_nil_of_false _ _ (MoveFrom_entries_key d pe1.Meta.TID X)]
  rfl

/-- C1 witness: the spec's rename scenario — `MoveFrom{tid=7, a}` then
`MoveTo{tid=7, "b"}` under root `/m` — ends with the single renamed
child and the expected pair of emissions. -/
theorem c1_witness :
    ((prPlain.process (prPlain.process mCache evMoveFromA).cache evMoveToB).cache.entries.filter
        (fun en => en.key == mChildA.key)) =
      [⟨"b", 2, 0, 0, 1, some ⟨1, 0, 0⟩⟩] ∧
    (prPlain.process mCache evMoveFromA).emits = [⟨"/m/a", 7, IN_MOVED_FROM⟩] ∧
    (prPlain.process (prPlain.process mCache evMoveFromA).cache evMoveToB).emits =
      [⟨"/m/b", 7, IN_MOVED_TO⟩] := by
  have h := c1_rename_pair prPlain mCache evMoveFromA evMoveToB mRoot mChildA mRoot
    (by decide) (by decide) (by decide) (by decide) (by decide)
    (by decide) (by decide) (by decide)
    (by decide) (by decide) (by decide) (by decide) (by decide) (by decide)
    (by decide) (by decide) (by decide)
  exact ⟨h.1, h.2.1, h.2.2.trans (by decide)⟩

end FileIntegrity
